import Mathlib

/-!
Verification development for the HR attrition reporting pipeline
(`hr_reporting_pipeline.py`).  The pandas data-frame program is shallowly
embedded: a table is a `List` of rows, a nullable cell is an `Option`,
pandas `NaN`/`NaT` is `none`, rationals stand for the float columns, and
dates are day numbers (`Int`) with a civil-calendar conversion for the
`.dt.year` / `.dt.to_period("M")` accessors.  Each definition mirrors one
concrete pandas expression of the script, noted in its doc comment.
-/

namespace HRPipeline

/-- Order-preserving deduplication with an accumulator of already-seen
values.  This embeds pandas `drop_duplicates()` (default `keep='first'`):
the first occurrence of every value is kept, in scan order. -/
def dedupFirstAux {α : Type} [DecidableEq α] (seen : List α) : List α → List α
  | [] => []
  | x :: xs => if x ∈ seen then dedupFirstAux seen xs else x :: dedupFirstAux (x :: seen) xs

/-- Embeds `df[[col]].drop_duplicates()` on a single column. -/
def dedupFirst {α : Type} [DecidableEq α] (l : List α) : List α :=
  dedupFirstAux [] l

theorem mem_dedupFirstAux {α : Type} [DecidableEq α] {a : α} :
    ∀ {l seen : List α}, a ∈ dedupFirstAux seen l ↔ a ∈ l ∧ a ∉ seen := by
  intro l
  induction l with
  | nil => intro seen; simp [dedupFirstAux]
  | cons x xs ih =>
    intro seen
    by_cases hx : x ∈ seen
    · rw [show dedupFirstAux seen (x :: xs) = dedupFirstAux seen xs by
        simp [dedupFirstAux, hx], ih]
      constructor
      · rintro ⟨h1, h2⟩; exact ⟨List.mem_cons_of_mem _ h1, h2⟩
      · rintro ⟨h1, h2⟩
        rcases List.mem_cons.mp h1 with rfl | h1
        · exact absurd hx h2
        · exact ⟨h1, h2⟩
    · rw [show dedupFirstAux seen (x :: xs) = x :: dedupFirstAux (x :: seen) xs by
        simp [dedupFirstAux, hx]]
      constructor
      · intro h
        rcases List.mem_cons.mp h with rfl | h
        · exact ⟨List.mem_cons_self _ _, hx⟩
        · obtain ⟨h1, h2⟩ := ih.mp h
          exact ⟨List.mem_cons_of_mem _ h1, fun hc => h2 (List.mem_cons_of_mem _ hc)⟩
      · rintro ⟨h1, h2⟩
        rcases List.mem_cons.mp h1 with rfl | h1
        · exact List.mem_cons_self _ _
        · by_cases hax : a = x
          · exact hax ▸ List.mem_cons_self _ _
          · refine List.mem_cons_of_mem _ (ih.mpr ⟨h1, fun hc => ?_⟩)
            rcases List.mem_cons.mp hc with h | h
            · exact hax h
            · exact h2 h

theorem mem_dedupFirst {α : Type} [DecidableEq α] {a : α} {l : List α} :
    a ∈ dedupFirst l ↔ a ∈ l := by
  simp [dedupFirst, mem_dedupFirstAux]

theorem nodup_dedupFirstAux {α : Type} [DecidableEq α] :
    ∀ {l seen : List α}, (dedupFirstAux seen l).Nodup := by
  intro l
  induction l with
  | nil => intro seen; simp [dedupFirstAux]
  | cons x xs ih =>
    intro seen
    by_cases hx : x ∈ seen
    · simpa [dedupFirstAux, if_pos hx] using ih
    · simp only [dedupFirstAux, if_neg hx, List.nodup_cons]
      refine ⟨fun hc => ?_, ih⟩
      exact (mem_dedupFirstAux.mp hc).2 (List.mem_cons_self _ _)

theorem nodup_dedupFirst {α : Type} [DecidableEq α] {l : List α} :
    (dedupFirst l).Nodup :=
  nodup_dedupFirstAux

/-- Index of the first occurrence of a value in a list (a specification
device used to state "first-seen order"). -/
def firstIdx {α : Type} [DecidableEq α] (a : α) : List α → Nat
  | [] => 0
  | x :: xs => if x = a then 0 else firstIdx a xs + 1

theorem firstIdx_cons_self {α : Type} [DecidableEq α] (a : α) (l : List α) :
    firstIdx a (a :: l) = 0 := by
  simp [firstIdx]

theorem firstIdx_cons_ne {α : Type} [DecidableEq α] {x a : α} (l : List α)
    (h : x ≠ a) : firstIdx a (x :: l) = firstIdx a l + 1 := by
  simp [firstIdx, h]

/-- First-seen order: the deduplicated list is strictly increasing in the
index of the first occurrence within the original list. -/
theorem pairwise_firstIdx_dedupFirstAux {α : Type} [DecidableEq α] :
    ∀ {l seen : List α},
      (dedupFirstAux seen l).Pairwise (fun a b => firstIdx a l < firstIdx b l) := by
  intro l
  induction l with
  | nil => intro seen; simp [dedupFirstAux]
  | cons x xs ih =>
    intro seen
    have hmono : ∀ {s : List α}, x ∈ s →
        (dedupFirstAux s xs).Pairwise
          (fun a b => firstIdx a (x :: xs) < firstIdx b (x :: xs)) := by
      intro s hxs
      refine List.Pairwise.imp_of_mem ?_ (@ih s)
      intro a b ha hb hab
      have hane : x ≠ a := fun h => (mem_dedupFirstAux.mp ha).2 (h ▸ hxs)
      have hbne : x ≠ b := fun h => (mem_dedupFirstAux.mp hb).2 (h ▸ hxs)
      rw [firstIdx_cons_ne _ hane, firstIdx_cons_ne _ hbne]
      omega
    by_cases hx : x ∈ seen
    · simpa only [dedupFirstAux, if_pos hx] using hmono hx
    · simp only [dedupFirstAux, if_neg hx]
      refine List.Pairwise.cons ?_ (hmono (List.mem_cons_self _ _))
      intro b hb
      have hbmem := mem_dedupFirstAux.mp hb
      have hbne : x ≠ b := fun hc => hbmem.2 (hc ▸ List.mem_cons_self _ _)
      rw [firstIdx_cons_self, firstIdx_cons_ne _ hbne]
      exact Nat.succ_pos _

theorem pairwise_firstIdx_dedupFirst {α : Type} [DecidableEq α] {l : List α} :
    (dedupFirst l).Pairwise (fun a b => firstIdx a l < firstIdx b l) :=
  pairwise_firstIdx_dedupFirstAux

/-- A dimension-table row: the natural-key column (kept nullable, as a raw
database column may contain nulls) together with the synthetic numeric
identifier assigned by the builder. -/
structure DimRow where
  name : Option String
  id : Nat
deriving DecidableEq

/-- Embeds `dim['<key>_id'] = dim.index + 1` after `reset_index(drop=True)`:
position `i` in the deduplicated sequence receives identifier `n + i`
(the builder starts with `n = 1`). -/
def assignIds : Nat → List (Option String) → List DimRow
  | _, [] => []
  | n, x :: xs => ⟨x, n⟩ :: assignIds (n + 1) xs

/-- The Dimension Builder, e.g.
`dim_departments = dim_dept_raw[['department']].drop_duplicates().reset_index(drop=True)`
followed by `dim_departments['department_id'] = dim_departments.index + 1`
(and a column rename that the embedding represents by the uniform field
names `name` / `id`). -/
def buildDim (col : List (Option String)) : List DimRow :=
  assignIds 1 (dedupFirst col)

theorem assignIds_map_name : ∀ (n : Nat) (l : List (Option String)),
    (assignIds n l).map DimRow.name = l := by
  intro n l
  induction l generalizing n with
  | nil => rfl
  | cons x xs ih => simp [assignIds, ih]

theorem assignIds_map_id : ∀ (n : Nat) (l : List (Option String)),
    (assignIds n l).map DimRow.id = List.range' n l.length := by
  intro n l
  induction l generalizing n with
  | nil => rfl
  | cons x xs ih => simp [assignIds, ih, List.range'_succ]

/-- Claim C2: for every input lookup table (any number of rows, duplicates
and "Unknown" allowed), the Dimension Builder outputs exactly one row per
distinct natural-key value, in first-seen order, with synthetic identifiers
forming the contiguous sequence 1, 2, ..., n; an empty input yields an
empty dimension table without error.  Formalised: the key column of
`buildDim col` is duplicate-free, has the same members as `col`, and is
strictly sorted by index of first occurrence in `col`; the identifier
column is exactly `[1, ..., n]`; and `buildDim [] = []`. -/
theorem C2_dimension_builder_correct (col : List (Option String)) :
    ((buildDim col).map DimRow.name).Nodup
    ∧ (∀ a, a ∈ (buildDim col).map DimRow.name ↔ a ∈ col)
    ∧ ((buildDim col).map DimRow.name).Pairwise
        (fun a b => firstIdx a col < firstIdx b col)
    ∧ (buildDim col).map DimRow.id = List.range' 1 (buildDim col).length
    ∧ buildDim ([] : List (Option String)) = [] := by
  have hname : (buildDim col).map DimRow.name = dedupFirst col :=
    assignIds_map_name 1 (dedupFirst col)
  have hlen : (buildDim col).length = (dedupFirst col).length := by
    have := congrArg List.length hname
    simpa using this
  refine ⟨?_, ?_, ?_, ?_, ?_⟩
  · rw [hname]; exact nodup_dedupFirst
  · intro a; rw [hname]; exact mem_dedupFirst
  · rw [hname]; exact pairwise_firstIdx_dedupFirst
  · rw [hlen]; exact assignIds_map_id 1 (dedupFirst col)
  · rfl


/-- A value of the boolean-like `attrition_flag` column, partitioned by
how Python `int()` treats it during `.astype(int)`: a genuine boolean
(the true-like / false-like domain); a numeric value or numeric string,
carried as the integer `n` that `int()` silently returns for it (e.g.
the string "2" or the float 2.0); or some other, non-numeric raw value
on which `int()` raises. -/
inductive FlagVal where
  | bool (b : Bool)
  | num (n : Int)
  | other (raw : String)
deriving DecidableEq

/-- One row of `hr.fact_employee_clean` after the date columns have been
parsed by `pd.to_datetime(..., errors='coerce')`: an unparsable or missing
date is `none` (pandas `NaT`), dates are day numbers, `salary` is a
rational standing for the float column. -/
structure FactRow where
  employee_id : Option String
  department : Option String
  position : Option String
  manager_name : Option String
  racedesc : Option String
  gender : Option String
  salary : Option ℚ
  date_of_birth : Option Int
  date_of_hire : Option Int
  date_of_termination : Option Int
  performance_category : Option String
  attrition_flag : FlagVal
deriving DecidableEq

/-- Pandas join-key equality: two equal non-null keys match, and — per
the documented warning in the pandas merging guide — rows whose keys are
null on both sides are also matched against each other (a null key
matches a null key, unlike usual SQL join behaviour). -/
def keyMatchB (fk : Option String) (dn : Option String) : Bool :=
  fk == dn

theorem keyMatchB_true {fk dn : Option String} :
    keyMatchB fk dn = true ↔ fk = dn := by
  simp [keyMatchB]

/-- One step of `fact.merge(dim, left_on=key, right_on='name', how="left")`:
each left row produces one output row per matching dimension row, or a
single output row with a null dimension part when nothing matches. -/
def mergeLeft {α β : Type} (fs : List α) (ds : List DimRow)
    (k : α → Option String) (mk : α → Option DimRow → β) : List β :=
  match fs with
  | [] => []
  | r :: rest =>
    (match ds.filter (fun d => keyMatchB (k r) d.name) with
     | [] => [mk r none]
     | ms => ms.map (fun d => mk r (some d))) ++ mergeLeft rest ds k mk

theorem filter_keyMatch_length_le_one {ds : List DimRow}
    (hnd : (ds.map DimRow.name).Nodup) (fk : Option String) :
    (ds.filter (fun d => keyMatchB fk d.name)).length ≤ 1 := by
  induction ds with
  | nil => simp
  | cons d rest ih =>
    rw [List.map_cons, List.nodup_cons] at hnd
    rw [List.filter_cons]
    by_cases hd : keyMatchB fk d.name = true
    · rw [if_pos hd]
      have hfk : fk = d.name := keyMatchB_true.mp hd
      have hrest : rest.filter (fun d => keyMatchB fk d.name) = [] := by
        rw [List.filter_eq_nil_iff]
        intro d2 hd2 hc
        have hfk2 : fk = d2.name := keyMatchB_true.mp hc
        refine hnd.1 (List.mem_map.mpr ⟨d2, hd2, ?_⟩)
        rw [← hfk2, hfk]
      simp [hrest]
    · rw [if_neg hd]
      exact ih hnd.2

theorem find?_eq_head?_filter {α : Type} (p : α → Bool) :
    ∀ (l : List α), l.find? p = (l.filter p).head? := by
  intro l
  induction l with
  | nil => rfl
  | cons x xs ih =>
    by_cases hx : p x = true
    · rw [List.find?_cons_of_pos _ hx, List.filter_cons, if_pos hx, List.head?_cons]
    · rw [List.find?_cons_of_neg _ (by simpa using hx), List.filter_cons, if_neg hx, ih]

/-- Under duplicate-free dimension keys, the left merge is exactly a map:
each left row is paired with the unique matching dimension row, if any. -/
theorem mergeLeft_eq_map_of_nodup {α β : Type} {ds : List DimRow}
    (hnd : (ds.map DimRow.name).Nodup) (fs : List α)
    (k : α → Option String) (mk : α → Option DimRow → β) :
    mergeLeft fs ds k mk
      = fs.map (fun r => mk r (ds.find? (fun d => keyMatchB (k r) d.name))) := by
  induction fs with
  | nil => rfl
  | cons r rest ih =>
    rw [List.map_cons]
    have hle := filter_keyMatch_length_le_one hnd (k r)
    have hfind := find?_eq_head?_filter (fun d => keyMatchB (k r) d.name) ds
    show (match ds.filter (fun d => keyMatchB (k r) d.name) with
     | [] => [mk r none]
     | ms => ms.map (fun d => mk r (some d))) ++ mergeLeft rest ds k mk = _
    match hF : ds.filter (fun d => keyMatchB (k r) d.name) with
    | [] =>
      rw [hF] at hfind
      simp only [List.head?_nil] at hfind
      rw [hF, hfind, ih]
      rfl
    | [d] =>
      rw [hF] at hfind
      simp only [List.head?_cons] at hfind
      rw [hF, hfind, ih]
      rfl
    | d :: d' :: t =>
      rw [hF] at hle
      simp at hle

/-- Under duplicate-free dimension keys, a matching dimension row is the
unique one the merge attaches. -/
theorem find?_eq_some_of_match {ds : List DimRow}
    (hnd : (ds.map DimRow.name).Nodup) {fk : Option String} {d : DimRow}
    (hd : d ∈ ds) (hm : keyMatchB fk d.name = true) :
    ds.find? (fun d => keyMatchB fk d.name) = some d := by
  rw [find?_eq_head?_filter]
  have hmem : d ∈ ds.filter (fun d => keyMatchB fk d.name) :=
    List.mem_filter.mpr ⟨hd, hm⟩
  have hle := filter_keyMatch_length_le_one hnd fk
  match hF : ds.filter (fun d => keyMatchB fk d.name) with
  | [] =>
    rw [hF] at hmem
    exact absurd hmem (List.not_mem_nil d)
  | [d2] =>
    rw [hF] at hmem
    rw [List.mem_singleton] at hmem
    rw [hF, hmem]
    rfl
  | d2 :: d3 :: t =>
    rw [hF] at hle
    simp at hle

/-- One row of the merged analytics table `df_analytics`: the original
fact row together with the (possibly missing) matched row of each of the
four dimension tables.  A `none` dimension part is a left-join miss and
stands for nulls in both the merged identifier and name columns. -/
structure Enriched where
  emp : FactRow
  dept : Option DimRow
  pos : Option DimRow
  mgr : Option DimRow
  race : Option DimRow
deriving DecidableEq

/-- The merged `department_id` column. -/
def department_id (e : Enriched) : Option Nat := e.dept.map DimRow.id

/-- The merged `department_name` column. -/
def department_name (e : Enriched) : Option String := e.dept.bind DimRow.name

/-- The merged `position_id` column. -/
def position_id (e : Enriched) : Option Nat := e.pos.map DimRow.id

/-- The merged `position_title` column. -/
def position_title (e : Enriched) : Option String := e.pos.bind DimRow.name

/-- The merged `manager_id` column. -/
def manager_id (e : Enriched) : Option Nat := e.mgr.map DimRow.id

/-- The merged `race_id` column. -/
def race_id (e : Enriched) : Option Nat := e.race.map DimRow.id

/-- The merged `race_name` column. -/
def race_name (e : Enriched) : Option String := e.race.bind DimRow.name

/-- The Enrichment Joiner: the chain of four left merges building
`df_analytics` —
`fact.merge(dim_departments, left_on="department", right_on="department_name", how="left")
     .merge(dim_positions, left_on="position", right_on="position_title", how="left")
     .merge(dim_managers, on="manager_name", how="left")
     .merge(dim_race, left_on="racedesc", right_on="race_name", how="left")`. -/
def enrich (facts : List FactRow) (dd dp dm dr : List DimRow) : List Enriched :=
  mergeLeft
    (mergeLeft
      (mergeLeft
        (mergeLeft facts dd FactRow.department
          (fun r d => Enriched.mk r d none none none))
        dp (fun e => e.emp.position) (fun e d => { e with pos := d }))
      dm (fun e => e.emp.manager_name) (fun e d => { e with mgr := d }))
    dr (fun e => e.emp.racedesc) (fun e d => { e with race := d })

/-- Closed form of the joiner under duplicate-free dimension keys. -/
theorem enrich_eq_map_of_nodup {facts : List FactRow} {dd dp dm dr : List DimRow}
    (h1 : (dd.map DimRow.name).Nodup) (h2 : (dp.map DimRow.name).Nodup)
    (h3 : (dm.map DimRow.name).Nodup) (h4 : (dr.map DimRow.name).Nodup) :
    enrich facts dd dp dm dr = facts.map (fun r =>
      { emp := r
        dept := dd.find? (fun d => keyMatchB r.department d.name)
        pos := dp.find? (fun d => keyMatchB r.position d.name)
        mgr := dm.find? (fun d => keyMatchB r.manager_name d.name)
        race := dr.find? (fun d => keyMatchB r.racedesc d.name) }) := by
  unfold enrich
  rw [mergeLeft_eq_map_of_nodup h1, mergeLeft_eq_map_of_nodup h2,
    mergeLeft_eq_map_of_nodup h3, mergeLeft_eq_map_of_nodup h4,
    List.map_map, List.map_map, List.map_map]
  rfl

/-- Claim C1: for every fact table and every four dimension tables whose
natural-key columns are duplicate-free, the Enrichment Joiner output has
exactly one row per input fact row; the underlying fact rows are preserved
verbatim and in order (so none is dropped or duplicated); a fact row with
no matching entry in a dimension keeps null in that dimension's
identifier and name columns; and a fact row whose key matches a dimension
entry receives exactly that entry.  Key matching follows pandas merge
semantics, where a null fact key matches a null dimension key. -/
theorem C1_enrichment_joiner_preserves_rows
    (facts : List FactRow) (dd dp dm dr : List DimRow)
    (h1 : (dd.map DimRow.name).Nodup) (h2 : (dp.map DimRow.name).Nodup)
    (h3 : (dm.map DimRow.name).Nodup) (h4 : (dr.map DimRow.name).Nodup) :
    (enrich facts dd dp dm dr).length = facts.length
    ∧ (enrich facts dd dp dm dr).map Enriched.emp = facts
    ∧ ∀ e ∈ enrich facts dd dp dm dr,
        ((∀ d ∈ dd, keyMatchB e.emp.department d.name = false) →
          department_id e = none ∧ department_name e = none)
        ∧ ((∀ d ∈ dp, keyMatchB e.emp.position d.name = false) →
          position_id e = none ∧ position_title e = none)
        ∧ ((∀ d ∈ dm, keyMatchB e.emp.manager_name d.name = false) →
          manager_id e = none)
        ∧ ((∀ d ∈ dr, keyMatchB e.emp.racedesc d.name = false) →
          race_id e = none ∧ race_name e = none)
        ∧ (∀ d ∈ dd, keyMatchB e.emp.department d.name = true → e.dept = some d)
        ∧ (∀ d ∈ dp, keyMatchB e.emp.position d.name = true → e.pos = some d)
        ∧ (∀ d ∈ dm, keyMatchB e.emp.manager_name d.name = true → e.mgr = some d)
        ∧ (∀ d ∈ dr, keyMatchB e.emp.racedesc d.name = true → e.race = some d) := by
  rw [enrich_eq_map_of_nodup h1 h2 h3 h4]
  refine ⟨by simp, ?_, ?_⟩
  · rw [List.map_map]
    exact List.map_congr_left (fun a _ => rfl) |>.trans (List.map_id facts)
  intro e he
  obtain ⟨r, _, rfl⟩ := List.mem_map.mp he
  have hnone : ∀ (ds : List DimRow) (fk : Option String),
      (∀ d ∈ ds, keyMatchB fk d.name = false) →
      ds.find? (fun d => keyMatchB fk d.name) = none := by
    intro ds fk h
    rw [List.find?_eq_none]
    intro d hd
    simp [h d hd]
  refine ⟨fun h => ?_, fun h => ?_, fun h => ?_, fun h => ?_,
    fun d hd hm => ?_, fun d hd hm => ?_, fun d hd hm => ?_, fun d hd hm => ?_⟩
  · have := hnone dd _ h
    simp [department_id, department_name, this]
  · have := hnone dp _ h
    simp [position_id, position_title, this]
  · have := hnone dm _ h
    simp [manager_id, this]
  · have := hnone dr _ h
    simp [race_id, race_name, this]
  · exact find?_eq_some_of_match h1 hd hm
  · exact find?_eq_some_of_match h2 hd hm
  · exact find?_eq_some_of_match h3 hd hm
  · exact find?_eq_some_of_match h4 hd hm

/-- Civil-calendar conversion of a day number (days since 1970-01-01) to
a (year, month, day) triple, by the standard inverse-of-days-from-civil
algorithm; this embeds the pandas datetime accessors `.dt.year` and the
year/month of `.dt.to_period("M")` on a parsed timestamp. -/
def civilOfDays (z0 : Int) : Int × Nat × Nat :=
  let z := z0 + 719468
  let era := (if 0 ≤ z then z else z - 146096) / 146097
  let doe := z - era * 146097
  let yoe := (doe - doe / 1460 + doe / 36524 - doe / 146096) / 365
  let y := yoe + era * 400
  let doy := doe - (365 * yoe + yoe / 4 - yoe / 100)
  let mp := (5 * doy + 2) / 153
  let d := doy - (153 * mp + 2) / 5 + 1
  let m := if mp < 10 then mp + 3 else mp - 9
  (if m ≤ 2 then y + 1 else y, m.toNat, d.toNat)

/-- The year component, embedding `event_date.dt.year` on a non-null cell. -/
def yearOf (z : Int) : Int := (civilOfDays z).1

/-- The month component (1..12) of a day number. -/
def monthOf (z : Int) : Nat := (civilOfDays z).2.1

/-- Zero-padded two-digit month, as in the "YYYY-MM" period rendering. -/
def pad2 (n : Nat) : String := if n < 10 then "0" ++ toString n else toString n

/-- The string form of a monthly period, as produced by
`.dt.to_period("M").astype(str)` on a non-null timestamp: "YYYY-MM". -/
def periodStrOf (z : Int) : String := toString (yearOf z) ++ "-" ++ pad2 (monthOf z)

/-- Embeds `series.astype(str)` on the monthly-period column: a null
period (pandas `NaT`) is rendered as the literal string "NaT", so the
resulting column never contains a null. -/
def astypeStr (p : Option String) : String :=
  match p with
  | none => "NaT"
  | some s => s

/-- Embeds `pd.cut(tenure_days, bins=[-1, 180, 365, 1095, 99999], labels=
["<6 months", "6-12 months", "1-3 years", "3+ years"])` with the default
right-closed intervals: a value is labelled iff it lies in (-1, 180],
(180, 365], (365, 1095] or (1095, 99999]; any value outside all four bins
(at or below -1, or above 99999) receives no label (null). -/
def tenureBucket (d : Int) : Option String :=
  if -1 < d ∧ d ≤ 180 then some "<6 months"
  else if 180 < d ∧ d ≤ 365 then some "6-12 months"
  else if 365 < d ∧ d ≤ 1095 then some "1-3 years"
  else if 1095 < d ∧ d ≤ 99999 then some "3+ years"
  else none

/-- Embeds `.astype(int)` on the `attrition_flag` column, which applies
Python `int()` elementwise: a true-like value becomes 1, a false-like
value becomes 0, a numeric value or numeric string is silently converted
to its integer value (no error, and not restricted to 0/1), and only a
non-numeric value raises an uncaught conversion error (pandas raises,
the script does not catch it). -/
def astypeInt : FlagVal → Except String Int
  | .bool true => .ok 1
  | .bool false => .ok 0
  | .num n => .ok n
  | .other raw => .error ("invalid literal for int() with base 10: " ++ raw)

/-- A fully derived analytics row: the enriched row plus the five feature
columns added in the feature-engineering step.  `event_month` is typed as
a nullable cell to mirror a data-frame column, although the deriver always
fills it with a (possibly "NaT") string. -/
structure ERow where
  emp : FactRow
  dept : Option DimRow
  pos : Option DimRow
  mgr : Option DimRow
  race : Option DimRow
  event_date : Option Int
  event_year : Option Int
  event_month : Option String
  tenure_days : Option Int
  tenure_bucket : Option String
  is_terminated : Int
deriving DecidableEq

/-- The Temporal Feature Deriver on one row:
`event_date = date_of_termination.fillna(date_of_hire)`,
`event_year = event_date.dt.year`,
`event_month = event_date.dt.to_period("M").astype(str)`,
`tenure_days = (event_date - date_of_hire).dt.days`,
`tenure_bucket = pd.cut(tenure_days, ...)`,
`is_terminated = attrition_flag.astype(int)` (which aborts the run on an
out-of-domain flag). -/
def deriveRow (e : Enriched) : Except String ERow :=
  match astypeInt e.emp.attrition_flag with
  | .error s => .error s
  | .ok ist =>
    let ed : Option Int :=
      match e.emp.date_of_termination with
      | some d => some d
      | none => e.emp.date_of_hire
    let td : Option Int :=
      match ed, e.emp.date_of_hire with
      | some d, some h => some (d - h)
      | _, _ => none
    .ok { emp := e.emp, dept := e.dept, pos := e.pos, mgr := e.mgr, race := e.race,
          event_date := ed,
          event_year := ed.map yearOf,
          event_month := some (astypeStr (ed.map periodStrOf)),
          tenure_days := td,
          tenure_bucket := td.bind tenureBucket,
          is_terminated := ist }

/-- The deriver over the whole table: the first failing cast aborts the
stage (an uncaught exception ends the run). -/
def deriveAll : List Enriched → Except String (List ERow)
  | [] => .ok []
  | e :: es =>
    match deriveRow e with
    | .error s => .error s
    | .ok r =>
      match deriveAll es with
      | .error s => .error s
      | .ok rs => .ok (r :: rs)

theorem deriveAll_ok_mem {es : List Enriched} {rows : List ERow}
    (h : deriveAll es = .ok rows) :
    ∀ r ∈ rows, ∃ e ∈ es, deriveRow e = .ok r := by
  induction es generalizing rows with
  | nil =>
    simp only [deriveAll, Except.ok.injEq] at h
    subst h
    intro r hr
    exact absurd hr (List.not_mem_nil r)
  | cons e es ih =>
    simp only [deriveAll] at h
    match he : deriveRow e with
    | .error s => rw [he] at h; exact absurd h (by simp)
    | .ok r0 =>
      rw [he] at h
      match hes : deriveAll es with
      | .error s => rw [hes] at h; exact absurd h (by simp)
      | .ok rs =>
        rw [hes] at h
        simp only [Except.ok.injEq] at h
        subst h
        intro r hr
        rcases List.mem_cons.mp hr with rfl | hr
        · exact ⟨e, List.mem_cons_self _ _, he⟩
        · obtain ⟨e1, he1, he2⟩ := ih hes r hr
          exact ⟨e1, List.mem_cons_of_mem _ he1, he2⟩

theorem deriveAll_error_of_mem {es : List Enriched} {e : Enriched} {s : String}
    (hmem : e ∈ es) (herr : deriveRow e = .error s) :
    ∃ msg, deriveAll es = .error msg := by
  induction es with
  | nil => exact absurd hmem (List.not_mem_nil e)
  | cons e0 es ih =>
    rcases List.mem_cons.mp hmem with rfl | hmem
    · exact ⟨s, by simp [deriveAll, herr]⟩
    · match he0 : deriveRow e0 with
      | .error s0 => exact ⟨s0, by simp [deriveAll, he0]⟩
      | .ok r0 =>
        obtain ⟨msg, hmsg⟩ := ih hmem
        exact ⟨msg, by simp [deriveAll, he0, hmsg]⟩

/-- A fact row with every nullable column null and a false-like attrition
flag; a minimal concrete input used by counterexamples and witnesses. -/
def noneFact : FactRow :=
  { employee_id := none, department := none, position := none,
    manager_name := none, racedesc := none, gender := none, salary := none,
    date_of_birth := none, date_of_hire := none, date_of_termination := none,
    performance_category := none, attrition_flag := .bool false }

/-- The all-null fact row as an enriched row with four join misses. -/
def noneEnriched : Enriched := ⟨noneFact, none, none, none, none⟩

/-- Claim C4, amended: `tenure_bucket` is assigned from `tenure_days` by
the fixed boundaries 0..180 to "<6 months", 181..365 to "6-12 months",
366..1095 to "1-3 years", and 1096 up to the top bin edge 99999 to
"3+ years"; values at or below -1, and values above 99999, fall into no
bucket (null label).  The upper bound is not unbounded: the last bin of
the `pd.cut` call is capped at 99999. -/
theorem C4_tenure_bucket_boundaries (d : Int) :
    (0 ≤ d ∧ d ≤ 180 → tenureBucket d = some "<6 months")
    ∧ (181 ≤ d ∧ d ≤ 365 → tenureBucket d = some "6-12 months")
    ∧ (366 ≤ d ∧ d ≤ 1095 → tenureBucket d = some "1-3 years")
    ∧ (1096 ≤ d ∧ d ≤ 99999 → tenureBucket d = some "3+ years")
    ∧ (d ≤ -1 → tenureBucket d = none)
    ∧ (99999 < d → tenureBucket d = none) := by
  refine ⟨fun h => ?_, fun h => ?_, fun h => ?_, fun h => ?_, fun h => ?_, fun h => ?_⟩
  all_goals
    simp only [tenureBucket]
    split_ifs with h1 h2 h3 h4 <;> first | rfl | (exfalso; omega)

/-- Witness for C4: the boundary values of the claim, evaluated. -/
theorem C4_tenure_bucket_boundaries_witness :
    tenureBucket 180 = some "<6 months" ∧ tenureBucket 181 = some "6-12 months"
    ∧ tenureBucket 365 = some "6-12 months" ∧ tenureBucket 366 = some "1-3 years"
    ∧ tenureBucket 1095 = some "1-3 years" ∧ tenureBucket 1096 = some "3+ years"
    ∧ tenureBucket (-1) = none :=
  ⟨(C4_tenure_bucket_boundaries 180).1 (by decide),
   (C4_tenure_bucket_boundaries 181).2.1 (by decide),
   (C4_tenure_bucket_boundaries 365).2.1 (by decide),
   (C4_tenure_bucket_boundaries 366).2.2.1 (by decide),
   (C4_tenure_bucket_boundaries 1095).2.2.1 (by decide),
   (C4_tenure_bucket_boundaries 1096).2.2.2.1 (by decide),
   (C4_tenure_bucket_boundaries (-1)).2.2.2.2.1 (by decide)⟩

/-- Counterexample to C4 as stated: the claim says every value of 1096 or
more maps to "3+ years", but the code's top bin edge is 99999, so the
value 100000 receives no bucket at all. -/
theorem C4_unbounded_upper_counterexample :
    tenureBucket 100000 = none
    ∧ tenureBucket 100000 ≠ some "3+ years" := by
  exact ⟨by decide, by decide⟩

/-- Claim C5, amended: for every derived row, `event_date` equals the
termination date when present and the hire date otherwise; and whenever
`event_date` is null, `event_year` is null but `event_month` is the
literal string "NaT" — the month column is produced by `.astype(str)`,
which renders a null period as "NaT", so it is never null. -/
theorem C5_event_date_fallback (e : Enriched) (row : ERow)
    (h : deriveRow e = .ok row) :
    (e.emp.date_of_termination ≠ none → row.event_date = e.emp.date_of_termination)
    ∧ (e.emp.date_of_termination = none → row.event_date = e.emp.date_of_hire)
    ∧ (row.event_date = none →
        row.event_year = none ∧ row.event_month = some "NaT") := by
  match hf : astypeInt e.emp.attrition_flag with
  | .error s =>
    rw [deriveRow, hf] at h
    exact absurd h (by simp)
  | .ok ist =>
    rw [deriveRow, hf] at h
    simp only [Except.ok.injEq] at h
    subst h
    refine ⟨fun ht => ?_, fun ht => ?_, fun hd => ?_⟩
    · match hterm : e.emp.date_of_termination with
      | some d => simp [hterm]
      | none => exact absurd hterm ht
    · simp [ht]
    · simp only at hd
      rw [hd]
      constructor
      · simp [hd]
      · simp [hd, astypeStr]

/-- Witness for C5: a concrete run of the deriver on the all-null row. -/
theorem C5_event_date_fallback_witness :
    ∃ row, deriveRow noneEnriched = Except.ok row
      ∧ row.event_date = none ∧ row.event_year = none
      ∧ row.event_month = some "NaT" := by
  refine ⟨_, rfl, rfl, ?_, ?_⟩
  · exact ((C5_event_date_fallback noneEnriched _ rfl).2.2 rfl).1
  · exact ((C5_event_date_fallback noneEnriched _ rfl).2.2 rfl).2

/-- Counterexample to C5 as stated: it is not true that a null
`event_date` makes `event_month` null; on the all-null row the month cell
holds the non-null string "NaT". -/
theorem C5_event_month_null_counterexample :
    ¬ (∀ (e : Enriched) (row : ERow), deriveRow e = .ok row →
        row.event_date = none →
        row.event_year = none ∧ row.event_month = none) := by
  intro hclaim
  have h := hclaim noneEnriched _ rfl rfl
  exact absurd h.2 (by decide)

/-- The groupby key of `df_analytics.groupby(["event_year", "event_month"])`:
pandas excludes a row from grouping when any component of its key is null
(`dropna=True`, the default). -/
def keyOf (r : ERow) : Option (Int × String) :=
  match r.event_year, r.event_month with
  | some y, some m => some (y, m)
  | _, _ => none

/-- One row of `monthly_summary`. -/
structure SummaryRow where
  event_year : Int
  event_month : String
  employees_start : Nat
  employees_left : Int
  attrition_rate : ℚ
  attrition_percent : ℚ
  attrition_rolling3m_pct : ℚ
deriving DecidableEq

/-- Scalar form of `np.where(cond, a, b)`. -/
def npWhere (c : Bool) (a b : ℚ) : ℚ := if c then a else b

/-- One aggregated group:
`employees_start = ("employee_id", "nunique")` (count of distinct non-null
identifiers), `employees_left = ("is_terminated", "sum")`,
`attrition_rate = np.where(employees_start > 0, employees_left / employees_start, 0)`,
`attrition_percent = attrition_rate * 100`.  The rolling column is filled
in afterwards and is initialised to 0 here. -/
def mkSummaryRow (rows : List ERow) (k : Int × String) : SummaryRow :=
  let g := rows.filter (fun r => decide (keyOf r = some k))
  let start := (dedupFirst (g.filterMap (fun r => r.emp.employee_id))).length
  let left := (g.map ERow.is_terminated).sum
  let rate := npWhere (decide (0 < start)) ((left : ℚ) / (start : ℚ)) 0
  { event_year := k.1, event_month := k.2, employees_start := start,
    employees_left := left, attrition_rate := rate,
    attrition_percent := rate * 100, attrition_rolling3m_pct := 0 }

/-- Embeds `.rolling(window=3, min_periods=1).mean()` on a column: entry
`i` is the mean of the trailing window of up to three entries ending at
`i`. -/
def rolling3 (xs : List ℚ) : List ℚ :=
  (List.range xs.length).map (fun i =>
    ((xs.take (i + 1)).drop (i - 2)).sum / ((((xs.take (i + 1)).drop (i - 2)).length : ℚ)))

/-- The grouped summary, one row per distinct non-null key, sorted
ascending by `event_month` (`monthly_summary.sort_values(by="event_month")`). -/
def sortedSummary (rows : List ERow) : List SummaryRow :=
  List.insertionSort (fun a b => a.event_month ≤ b.event_month)
    ((dedupFirst (rows.filterMap keyOf)).map (mkSummaryRow rows))

/-- The final `monthly_summary` table: the sorted groups with
`attrition_rolling3m_pct` overwritten by the rolling mean of
`attrition_percent` in sorted order. -/
def monthlySummary (rows : List ERow) : List SummaryRow :=
  ((sortedSummary rows).zip
      (rolling3 ((sortedSummary rows).map SummaryRow.attrition_percent))).map
    (fun p => { p.1 with attrition_rolling3m_pct := p.2 })

theorem rolling3_length (xs : List ℚ) : (rolling3 xs).length = xs.length := by
  simp [rolling3]

theorem monthlySummary_map_roll (rows : List ERow) :
    (monthlySummary rows).map SummaryRow.attrition_rolling3m_pct
      = rolling3 ((sortedSummary rows).map SummaryRow.attrition_percent) := by
  unfold monthlySummary
  rw [List.map_map]
  have hlen : (rolling3 ((sortedSummary rows).map SummaryRow.attrition_percent)).length
      ≤ (sortedSummary rows).length := by
    rw [rolling3_length, List.length_map]
  rw [show (SummaryRow.attrition_rolling3m_pct ∘
      fun p : SummaryRow × ℚ => { p.1 with attrition_rolling3m_pct := p.2 })
      = Prod.snd from rfl]
  exact List.map_snd_zip _ _ hlen

theorem monthlySummary_map_of_update_invariant (rows : List ERow)
    {β : Type} (f : SummaryRow → β)
    (hf : ∀ (s : SummaryRow) (v : ℚ), f { s with attrition_rolling3m_pct := v } = f s) :
    (monthlySummary rows).map f = (sortedSummary rows).map f := by
  unfold monthlySummary
  rw [List.map_map]
  have hlen : (sortedSummary rows).length
      ≤ (rolling3 ((sortedSummary rows).map SummaryRow.attrition_percent)).length := by
    rw [rolling3_length, List.length_map]
  have hfst := List.map_fst_zip (sortedSummary rows)
    (rolling3 ((sortedSummary rows).map SummaryRow.attrition_percent)) hlen
  calc ((sortedSummary rows).zip
          (rolling3 ((sortedSummary rows).map SummaryRow.attrition_percent))).map
        (f ∘ fun p => { p.1 with attrition_rolling3m_pct := p.2 })
      = ((sortedSummary rows).zip
          (rolling3 ((sortedSummary rows).map SummaryRow.attrition_percent))).map
        (f ∘ Prod.fst) := List.map_congr_left (fun p _ => hf p.1 p.2)
    _ = (sortedSummary rows).map f := by rw [← List.map_map, hfst]

theorem mem_monthlySummary {rows : List ERow} {row : SummaryRow}
    (h : row ∈ monthlySummary rows) :
    ∃ k ∈ dedupFirst (rows.filterMap keyOf), ∃ v : ℚ,
      row = { mkSummaryRow rows k with attrition_rolling3m_pct := v } := by
  unfold monthlySummary at h
  obtain ⟨p, hp, rfl⟩ := List.mem_map.mp h
  have hfst : p.1 ∈ sortedSummary rows := (List.of_mem_zip hp).1
  have hperm := List.perm_insertionSort
    (fun a b : SummaryRow => a.event_month ≤ b.event_month)
    ((dedupFirst (rows.filterMap keyOf)).map (mkSummaryRow rows))
  have hbase : p.1 ∈ (dedupFirst (rows.filterMap keyOf)).map (mkSummaryRow rows) :=
    hperm.mem_iff.mp hfst
  obtain ⟨k, hk, hk2⟩ := List.mem_map.mp hbase
  exact ⟨k, hk, p.2, by rw [hk2]⟩

theorem rolling3_get (xs : List ℚ) (i : Nat) (h : i < xs.length) :
    (rolling3 xs).get ⟨i, by rw [rolling3_length xs]; exact h⟩
      = ((xs.take (i + 1)).drop (i - 2)).sum
        / ((((xs.take (i + 1)).drop (i - 2)).length : ℚ)) := by
  simp only [rolling3, List.get_eq_getElem, List.getElem_map, List.getElem_range]

theorem rolling3_get_zero (xs : List ℚ) (h : 0 < xs.length) :
    (rolling3 xs).get ⟨0, by rw [rolling3_length xs]; exact h⟩ = xs.get ⟨0, h⟩ := by
  rw [rolling3_get xs 0 h]
  match xs, h with
  | x :: t, _ =>
    simp

theorem rolling3_get_one (xs : List ℚ) (h : 1 < xs.length) :
    (rolling3 xs).get ⟨1, by rw [rolling3_length xs]; exact h⟩
      = (xs.get ⟨0, by omega⟩ + xs.get ⟨1, h⟩) / 2 := by
  rw [rolling3_get xs 1 h]
  match xs, h with
  | a :: b :: t, _ =>
    simp

theorem rolling3_get_ge_two (xs : List ℚ) (i : Nat) (h2 : 2 ≤ i) (h : i < xs.length) :
    (rolling3 xs).get ⟨i, by rw [rolling3_length xs]; exact h⟩
      = (xs.get ⟨i - 2, by omega⟩ + xs.get ⟨i - 1, by omega⟩ + xs.get ⟨i, h⟩) / 3 := by
  rw [rolling3_get xs i h]
  have hw : (xs.take (i + 1)).drop (i - 2)
      = [xs.get ⟨i - 2, by omega⟩, xs.get ⟨i - 1, by omega⟩, xs.get ⟨i, h⟩] := by
    rw [List.drop_take]
    have h3 : i + 1 - (i - 2) = 3 := by omega
    rw [h3]
    have hd1 : xs.drop (i - 2) = xs.get ⟨i - 2, by omega⟩ :: xs.drop (i - 2 + 1) := by
      rw [List.drop_eq_getElem_cons (by omega : i - 2 < xs.length)]
      simp [List.get_eq_getElem]
    have he1 : i - 2 + 1 = i - 1 := by omega
    have hd2 : xs.drop (i - 1) = xs.get ⟨i - 1, by omega⟩ :: xs.drop (i - 1 + 1) := by
      rw [List.drop_eq_getElem_cons (by omega : i - 1 < xs.length)]
      simp [List.get_eq_getElem]
    have he2 : i - 1 + 1 = i := by omega
    have hd3 : xs.drop i = xs.get ⟨i, h⟩ :: xs.drop (i + 1) := by
      rw [List.drop_eq_getElem_cons h]
      simp [List.get_eq_getElem]
    rw [hd1, he1, hd2, he2, hd3]
    rfl
  rw [hw]
  simp [List.sum_cons]
  ring_nf

/-- Claim C3: in the monthly summary (already in ascending `event_month`
order), the rolling column equals `rolling3` of the summary's own
`attrition_percent` column; `rolling3` computes, at each row, the
arithmetic mean of that row and up to two immediately preceding rows; and
the attrition-percent sequence [10, 20, 30, 40, 50] yields the rolling
sequence [10, 15, 20, 30, 40]. -/
theorem C3_rolling_three_month_mean :
    (∀ rows : List ERow,
      (monthlySummary rows).map SummaryRow.attrition_rolling3m_pct
        = rolling3 ((monthlySummary rows).map SummaryRow.attrition_percent))
    ∧ (∀ (xs : List ℚ) (h : 0 < xs.length),
        (rolling3 xs).get ⟨0, by rw [rolling3_length xs]; exact h⟩ = xs.get ⟨0, h⟩)
    ∧ (∀ (xs : List ℚ) (h : 1 < xs.length),
        (rolling3 xs).get ⟨1, by rw [rolling3_length xs]; exact h⟩
          = (xs.get ⟨0, by omega⟩ + xs.get ⟨1, h⟩) / 2)
    ∧ (∀ (xs : List ℚ) (i : Nat) (h2 : 2 ≤ i) (h : i < xs.length),
        (rolling3 xs).get ⟨i, by rw [rolling3_length xs]; exact h⟩
          = (xs.get ⟨i - 2, by omega⟩ + xs.get ⟨i - 1, by omega⟩ + xs.get ⟨i, h⟩) / 3)
    ∧ rolling3 [10, 20, 30, 40, 50] = [10, 15, 20, 30, 40] := by
  refine ⟨?_, rolling3_get_zero, rolling3_get_one, rolling3_get_ge_two, ?_⟩
  · intro rows
    rw [monthlySummary_map_roll,
      monthlySummary_map_of_update_invariant rows SummaryRow.attrition_percent
        (fun s v => rfl)]
  · norm_num [rolling3, List.range_succ]

/-- Witness for C3: the windowed-mean characterisation evaluated on the
claim's five-month sequence. -/
theorem C3_rolling_three_month_mean_witness :
    (rolling3 [10, 20, 30, 40, 50]).get
        ⟨4, by rw [rolling3_length]; norm_num⟩ = (30 + 40 + 50) / 3 := by
  have h := C3_rolling_three_month_mean.2.2.2.1 [10, 20, 30, 40, 50] 4
    (by norm_num) (by norm_num)
  simpa using h

theorem mkSummaryRow_rate_spec (rows : List ERow) (k : Int × String) :
    ((mkSummaryRow rows k).employees_start = 0 → (mkSummaryRow rows k).attrition_rate = 0)
    ∧ ((mkSummaryRow rows k).employees_start ≠ 0 →
        (mkSummaryRow rows k).attrition_rate
          = ((mkSummaryRow rows k).employees_left : ℚ)
            / ((mkSummaryRow rows k).employees_start : ℚ))
    ∧ (mkSummaryRow rows k).attrition_percent = (mkSummaryRow rows k).attrition_rate * 100 := by
  unfold mkSummaryRow npWhere
  simp only
  refine ⟨fun h0 => ?_, fun h0 => ?_, ?_⟩
  · rw [h0]
    simp
  · rw [if_pos]
    simpa using Nat.pos_of_ne_zero h0
  · first
    | rfl
    | trivial

/-- Claim C8: for every Monthly Summary row, a month with zero
`employees_start` yields `attrition_rate = 0` (not an error and not NaN:
the embedding's value is the exact rational 0); otherwise the rate is
`employees_left / employees_start`; and `attrition_percent` is the rate
times 100. -/
theorem C8_attrition_rate_division_guard (rows : List ERow) (row : SummaryRow)
    (h : row ∈ monthlySummary rows) :
    (row.employees_start = 0 → row.attrition_rate = 0)
    ∧ (row.employees_start ≠ 0 →
        row.attrition_rate = (row.employees_left : ℚ) / (row.employees_start : ℚ))
    ∧ row.attrition_percent = row.attrition_rate * 100 := by
  obtain ⟨k, hk, v, rfl⟩ := mem_monthlySummary h
  have hspec := mkSummaryRow_rate_spec rows k
  exact ⟨fun h0 => hspec.1 h0, fun h0 => hspec.2.1 h0, hspec.2.2⟩

theorem monthlySummary_length (rows : List ERow) :
    (monthlySummary rows).length = (dedupFirst (rows.filterMap keyOf)).length := by
  unfold monthlySummary
  have hsorted : (sortedSummary rows).length
      = (dedupFirst (rows.filterMap keyOf)).length := by
    unfold sortedSummary
    rw [List.length_insertionSort, List.length_map]
  rw [List.length_map, List.length_zip, rolling3_length, List.length_map, hsorted]
  exact Nat.min_self _

/-- A derived row carrying a complete month key and a departure, used as a
concrete input by witnesses. -/
def sampleERow : ERow :=
  { emp := { noneFact with employee_id := some "E1", attrition_flag := .bool true },
    dept := none, pos := none, mgr := none, race := none,
    event_date := some 0, event_year := some 1970, event_month := some "1970-01",
    tenure_days := some 0, tenure_bucket := some "<6 months", is_terminated := 1 }

/-- Witness for C8: the guard evaluated on a one-row summary. -/
theorem C8_attrition_rate_division_guard_witness :
    ∃ row ∈ monthlySummary [sampleERow],
      (row.employees_start = 0 → row.attrition_rate = 0)
      ∧ (row.employees_start ≠ 0 →
          row.attrition_rate = (row.employees_left : ℚ) / (row.employees_start : ℚ))
      ∧ row.attrition_percent = row.attrition_rate * 100 := by
  have hne : monthlySummary [sampleERow] ≠ [] := by
    intro hc
    have hlen := congrArg List.length hc
    rw [monthlySummary_length] at hlen
    exact absurd hlen (by decide)
  exact ⟨(monthlySummary [sampleERow]).head hne, List.head_mem hne,
    C8_attrition_rate_division_guard _ _ (List.head_mem hne)⟩

theorem sum_map_add_of_mem {κ : Type} [DecidableEq κ] :
    ∀ {keys : List κ}, keys.Nodup → ∀ {k0 : κ}, k0 ∈ keys →
      ∀ (g h : κ → Int) (c : Int), g k0 = c + h k0 →
      (∀ k ∈ keys, k ≠ k0 → g k = h k) →
      (keys.map g).sum = c + (keys.map h).sum := by
  intro keys
  induction keys with
  | nil => intro _ k0 hk0; exact absurd hk0 (List.not_mem_nil k0)
  | cons k ks ih =>
    intro hnd k0 hk0 g h c hgk hother
    rw [List.nodup_cons] at hnd
    rcases List.mem_cons.mp hk0 with rfl | hk0
    · have hrest : ks.map g = ks.map h := by
        refine List.map_congr_left (fun k2 hk2 => ?_)
        exact hother k2 (List.mem_cons_of_mem _ hk2) (fun hc => hnd.1 (hc ▸ hk2))
      rw [List.map_cons, List.map_cons, List.sum_cons, List.sum_cons, hrest, hgk]
      omega
    · have hk : g k = h k :=
        hother k (List.mem_cons_self _ _) (fun hc => hnd.1 (hc ▸ hk0))
      have hih := ih hnd.2 hk0 g h c hgk
        (fun k2 hk2 hne => hother k2 (List.mem_cons_of_mem _ hk2) hne)
      rw [List.map_cons, List.map_cons, List.sum_cons, List.sum_cons, hk, hih]
      omega

theorem sum_filter_key {κ : Type} [DecidableEq κ] (key : ERow → Option κ)
    (f : ERow → Int) :
    ∀ (l : List ERow) (keys : List κ), keys.Nodup →
      (∀ r ∈ l, ∀ k, key r = some k → k ∈ keys) →
      (keys.map (fun k => ((l.filter (fun r => decide (key r = some k))).map f).sum)).sum
        = ((l.filter (fun r => (key r).isSome)).map f).sum := by
  intro l
  induction l with
  | nil =>
    intro keys _ _
    rw [show (keys.map fun k =>
        ((List.filter (fun r => decide (key r = some k)) []).map f).sum)
      = keys.map (fun _ => (0 : Int)) from List.map_congr_left (fun k _ => rfl)]
    simp
  | cons r l ih =>
    intro keys hnd hcov
    have hcov2 : ∀ r2 ∈ l, ∀ k, key r2 = some k → k ∈ keys :=
      fun r2 hr2 => hcov r2 (List.mem_cons_of_mem _ hr2)
    match hkr : key r with
    | none =>
      have hstep : (keys.map fun k =>
            (((r :: l).filter (fun r2 => decide (key r2 = some k))).map f).sum)
          = keys.map fun k =>
            ((l.filter (fun r2 => decide (key r2 = some k))).map f).sum := by
        refine List.map_congr_left (fun k _ => ?_)
        rw [List.filter_cons, if_neg (by simp [hkr])]
      rw [hstep, ih keys hnd hcov2, List.filter_cons,
        if_neg (by simp [hkr])]
    | some k0 =>
      have hk0 : k0 ∈ keys := hcov r (List.mem_cons_self _ _) k0 hkr
      have hmain := sum_map_add_of_mem hnd hk0
        (fun k => (((r :: l).filter (fun r2 => decide (key r2 = some k))).map f).sum)
        (fun k => ((l.filter (fun r2 => decide (key r2 = some k))).map f).sum)
        (f r)
        (by dsimp only
            rw [List.filter_cons, if_pos (by simp [hkr])]
            rw [List.map_cons, List.sum_cons])
        (fun k hk hne => by
          dsimp only
          rw [List.filter_cons, if_neg (by simp [hkr, Ne.symm hne])])
      rw [hmain, ih keys hnd hcov2, List.filter_cons, if_pos (by simp [hkr]),
        List.map_cons, List.sum_cons]

/-- Claim C6, amended: the sum of `employees_left` over the Monthly
Summary equals the sum of `is_terminated` over exactly those enriched rows
whose group key is fully non-null, i.e. whose `event_year` and
`event_month` are both non-null.  (The original claim's criterion —
`event_month` non-null alone — does not match the code: after derivation
the month column is never null, and exclusion from grouping is driven by
the null `event_year` component of the key.) -/
theorem C6_rollup_totals (rows : List ERow) :
    ((monthlySummary rows).map SummaryRow.employees_left).sum
      = ((rows.filter (fun r => r.event_year.isSome && r.event_month.isSome)).map
          ERow.is_terminated).sum := by
  have h1 : (monthlySummary rows).map SummaryRow.employees_left
      = (sortedSummary rows).map SummaryRow.employees_left :=
    monthlySummary_map_of_update_invariant rows SummaryRow.employees_left (fun s v => rfl)
  rw [h1]
  have hperm : ((sortedSummary rows).map SummaryRow.employees_left).Perm
      (((dedupFirst (rows.filterMap keyOf)).map (mkSummaryRow rows)).map
        SummaryRow.employees_left) :=
    (List.perm_insertionSort _ _).map _
  rw [hperm.sum_eq, List.map_map]
  have h3 : (dedupFirst (rows.filterMap keyOf)).map
        (SummaryRow.employees_left ∘ mkSummaryRow rows)
      = (dedupFirst (rows.filterMap keyOf)).map
          (fun k => ((rows.filter (fun r => decide (keyOf r = some k))).map
            ERow.is_terminated).sum) :=
    List.map_congr_left (fun k _ => rfl)
  rw [h3]
  have h4 := sum_filter_key keyOf ERow.is_terminated rows
    (dedupFirst (rows.filterMap keyOf)) nodup_dedupFirst
    (fun r hr k hk => mem_dedupFirst.mpr (List.mem_filterMap.mpr ⟨r, hr, hk⟩))
  rw [h4]
  refine congrArg _ (congrArg _ (List.filter_congr (fun r _ => ?_)))
  cases hy : r.event_year <;> cases hm : r.event_month <;> simp [keyOf, hy, hm]

/-- Witness for C6: the total identity evaluated on a one-row table. -/
theorem C6_rollup_totals_witness :
    ((monthlySummary [sampleERow]).map SummaryRow.employees_left).sum
      = (([sampleERow].filter (fun r => r.event_year.isSome && r.event_month.isSome)).map
          ERow.is_terminated).sum :=
  C6_rollup_totals [sampleERow]

/-- A derived row as produced by the deriver from an all-null fact row
whose attrition flag is true-like: the event date is null, the year is
null, the month cell is the string "NaT", and `is_terminated` is 1. -/
def natERow : ERow :=
  { emp := { noneFact with attrition_flag := .bool true },
    dept := none, pos := none, mgr := none, race := none,
    event_date := none, event_year := none, event_month := some "NaT",
    tenure_days := none, tenure_bucket := none, is_terminated := 1 }

/-- Counterexample to C6 as stated: with the month-only criterion the
claim fails.  The row `natERow` is reachable from the deriver (first
conjunct); its month cell is the non-null string "NaT", so the claim
counts its departure on the right-hand side, yet the row joins no monthly
group (its `event_year` is null), so the summary is empty. -/
theorem C6_month_only_criterion_counterexample :
    deriveRow { emp := { noneFact with attrition_flag := FlagVal.bool true },
                dept := none, pos := none, mgr := none, race := none }
        = Except.ok natERow
    ∧ ¬ (((monthlySummary [natERow]).map SummaryRow.employees_left).sum
          = (([natERow].filter (fun r => r.event_month.isSome)).map
              ERow.is_terminated).sum) :=
  ⟨rfl, by decide⟩

/-- Embeds `.replace("Unknown", np.nan)` on one string cell. -/
def replaceU (c : Option String) : Option String :=
  if c = some "Unknown" then none else c

theorem replaceU_ne_unknown (c : Option String) : replaceU c ≠ some "Unknown" := by
  unfold replaceU
  split
  · simp
  · assumption

theorem replaceU_eq_self_of_ne {c : Option String} (h : c ≠ some "Unknown") :
    replaceU c = c := by
  unfold replaceU
  exact if_neg h

/-- Embeds `dim.replace("Unknown", np.nan).dropna()`: the sentinel key
becomes null and then every row with a null in any column is removed (the
identifier column is an integer column and is never null, so the natural
key decides the drop). -/
def dimClean (d : List DimRow) : List DimRow :=
  (d.map (fun r => { r with name := replaceU r.name })).filter
    (fun r => r.name.isSome)

/-- One row of the cleaned fact table `fact_hr_final`: `df_analytics`
minus the dropped join-key text columns `department`, `position`,
`department_name`, `position_title`, `manager_name` and `race_name`
(`racedesc` is kept). -/
structure CleanRow where
  employee_id : Option String
  racedesc : Option String
  gender : Option String
  salary : Option ℚ
  date_of_birth : Option Int
  date_of_hire : Option Int
  date_of_termination : Option Int
  performance_category : Option String
  attrition_flag : FlagVal
  department_id : Option Nat
  position_id : Option Nat
  manager_id : Option Nat
  race_id : Option Nat
  event_date : Option Int
  event_year : Option Int
  event_month : Option String
  tenure_days : Option Int
  tenure_bucket : Option String
  is_terminated : Int
deriving DecidableEq

/-- Embeds `fact_hr_final = df_analytics.drop(columns=[...])`: a pure
column selection; every surviving cell is carried over unchanged. -/
def dropCols (r : ERow) : CleanRow :=
  { employee_id := r.emp.employee_id, racedesc := r.emp.racedesc,
    gender := r.emp.gender, salary := r.emp.salary,
    date_of_birth := r.emp.date_of_birth, date_of_hire := r.emp.date_of_hire,
    date_of_termination := r.emp.date_of_termination,
    performance_category := r.emp.performance_category,
    attrition_flag := r.emp.attrition_flag,
    department_id := r.dept.map DimRow.id, position_id := r.pos.map DimRow.id,
    manager_id := r.mgr.map DimRow.id, race_id := r.race.map DimRow.id,
    event_date := r.event_date, event_year := r.event_year,
    event_month := r.event_month, tenure_days := r.tenure_days,
    tenure_bucket := r.tenure_bucket, is_terminated := r.is_terminated }

/-- Embeds `fact_hr_clean = fact_hr_final.replace("Unknown", np.nan)`:
the sentinel rule applied across all columns; only string-typed cells can
hold the sentinel, numeric and date cells are unchanged. -/
def replaceRowU (r : CleanRow) : CleanRow :=
  { r with
    employee_id := replaceU r.employee_id,
    racedesc := replaceU r.racedesc,
    gender := replaceU r.gender,
    performance_category := replaceU r.performance_category,
    event_month := replaceU r.event_month,
    tenure_bucket := replaceU r.tenure_bucket }

/-- The required-field policy (`critical_cols` restricted to the columns
that exist, which in this embedding is all seven). -/
def requiredOk (r : CleanRow) : Bool :=
  r.employee_id.isSome && r.department_id.isSome && r.position_id.isSome
    && r.gender.isSome && r.salary.isSome && r.date_of_hire.isSome
    && r.performance_category.isSome

/-- The cleaned Power BI fact table: sentinel replacement, then
`dropna(subset=['racedesc'])` (the second racedesc replacement in the
script is idempotent and does not change the result), then
`dropna(subset=cols_to_check)`. -/
def factHrClean (rows : List ERow) : List CleanRow :=
  ((rows.map (fun e => replaceRowU (dropCols e))).filter
      (fun r => r.racedesc.isSome)).filter requiredOk

/-- The string-typed cells of a cleaned fact row (the only cells that can
hold the "Unknown" sentinel). -/
def stringCells (r : CleanRow) : List (Option String) :=
  [r.employee_id, r.racedesc, r.gender, r.performance_category,
   r.event_month, r.tenure_bucket]

/-- One row of `fact_attrition_monthly`. -/
structure MonthlyFactRow where
  month : String
  employees_start : Nat
  employees_left : Int
  attrition_rate : ℚ
  attrition_percent : ℚ
  attrition_rolling3m_pct : ℚ
deriving DecidableEq

/-- Embeds `monthly_summary[fact_attrition_columns].rename(columns=
{'event_month': 'month'}).dropna()`: every selected cell of a summary row
is non-null by construction, so the `dropna` removes nothing and the step
is a plain column selection and rename. -/
def factAttritionClean (summary : List SummaryRow) : List MonthlyFactRow :=
  summary.map (fun s =>
    { month := s.event_month, employees_start := s.employees_start,
      employees_left := s.employees_left, attrition_rate := s.attrition_rate,
      attrition_percent := s.attrition_percent,
      attrition_rolling3m_pct := s.attrition_rolling3m_pct })

/-- The five tables loaded from PostgreSQL: the employee fact table and
the single natural-key column of each raw dimension table. -/
structure RawTables where
  fact : List FactRow
  dept_col : List (Option String)
  pos_col : List (Option String)
  mgr_col : List (Option String)
  race_col : List (Option String)

/-- The exported tables (showcase and Power BI bundles). -/
structure Outputs where
  df_analytics : List ERow
  monthly_summary : List SummaryRow
  dim_departments_clean : List DimRow
  dim_positions_clean : List DimRow
  dim_managers_clean : List DimRow
  dim_race_clean : List DimRow
  fact_hr_clean : List CleanRow
  fact_attrition_clean : List MonthlyFactRow

/-- The transformation core of the script, in its source order: exit when
the fact table is empty, build the four dimensions, join, derive features
(aborting the run on a failed flag cast), aggregate monthly, and clean;
on success all output tables are produced. -/
def runPipeline (t : RawTables) : Except String Outputs :=
  if t.fact.isEmpty then .error "Fact table is empty. Pipeline cannot continue."
  else
    match deriveAll (enrich t.fact (buildDim t.dept_col) (buildDim t.pos_col)
        (buildDim t.mgr_col) (buildDim t.race_col)) with
    | .error s => .error s
    | .ok rows =>
      .ok { df_analytics := rows,
            monthly_summary := monthlySummary rows,
            dim_departments_clean := dimClean (buildDim t.dept_col),
            dim_positions_clean := dimClean (buildDim t.pos_col),
            dim_managers_clean := dimClean (buildDim t.mgr_col),
            dim_race_clean := dimClean (buildDim t.race_col),
            fact_hr_clean := factHrClean rows,
            fact_attrition_clean := factAttritionClean (monthlySummary rows) }

theorem runPipeline_ok_elim {t : RawTables} {out : Outputs}
    (h : runPipeline t = .ok out) :
    ∃ rows, deriveAll (enrich t.fact (buildDim t.dept_col) (buildDim t.pos_col)
        (buildDim t.mgr_col) (buildDim t.race_col)) = .ok rows
      ∧ out = { df_analytics := rows,
                monthly_summary := monthlySummary rows,
                dim_departments_clean := dimClean (buildDim t.dept_col),
                dim_positions_clean := dimClean (buildDim t.pos_col),
                dim_managers_clean := dimClean (buildDim t.mgr_col),
                dim_race_clean := dimClean (buildDim t.race_col),
                fact_hr_clean := factHrClean rows,
                fact_attrition_clean := factAttritionClean (monthlySummary rows) } := by
  unfold runPipeline at h
  by_cases he : t.fact.isEmpty
  · rw [if_pos he] at h
    exact absurd h (by simp)
  · rw [if_neg he] at h
    match hd : deriveAll (enrich t.fact (buildDim t.dept_col) (buildDim t.pos_col)
        (buildDim t.mgr_col) (buildDim t.race_col)) with
    | .error s =>
      rw [hd] at h
      exact absurd h (by simp)
    | .ok rows =>
      rw [hd] at h
      simp only [Except.ok.injEq] at h
      exact ⟨rows, rfl, h.symm⟩

theorem dimClean_no_unknown {d : List DimRow} {r : DimRow} (h : r ∈ dimClean d) :
    r.name ≠ some "Unknown" ∧ r.name ≠ none := by
  obtain ⟨hmem, hsome⟩ := List.mem_filter.mp h
  obtain ⟨x, _, rfl⟩ := List.mem_map.mp hmem
  refine ⟨replaceU_ne_unknown x.name, ?_⟩
  intro hc
  rw [hc] at hsome
  simp at hsome

theorem stringCells_replaceRowU (r : CleanRow) :
    ∀ c ∈ stringCells (replaceRowU r), c ≠ some "Unknown" := by
  intro c hc
  simp only [stringCells, replaceRowU, List.mem_cons, List.not_mem_nil, or_false]
    at hc
  rcases hc with rfl | rfl | rfl | rfl | rfl | rfl <;> exact replaceU_ne_unknown _

theorem periodStrOf_ne_unknown (z : Int) : periodStrOf z ≠ "Unknown" := by
  intro hc
  have h1 : '-' ∈ (toString (yearOf z) ++ "-").data := by
    rw [String.data_append]
    exact List.mem_append.mpr (Or.inr (by decide))
  have hmem : '-' ∈ (periodStrOf z).data := by
    unfold periodStrOf
    rw [String.data_append]
    exact List.mem_append.mpr (Or.inl h1)
  rw [hc] at hmem
  exact absurd hmem (by decide)

theorem event_month_value {e : Enriched} {r : ERow} (h : deriveRow e = .ok r) :
    r.event_month = some "NaT" ∨ ∃ z, r.event_month = some (periodStrOf z) := by
  match hf : astypeInt e.emp.attrition_flag with
  | .error s =>
    rw [deriveRow, hf] at h
    exact absurd h (by simp)
  | .ok ist =>
    rw [deriveRow, hf] at h
    simp only [Except.ok.injEq] at h
    subst h
    match ht : e.emp.date_of_termination, hh : e.emp.date_of_hire with
    | some d, _ => exact Or.inr ⟨d, by simp [ht, astypeStr]⟩
    | none, some d => exact Or.inr ⟨d, by simp [ht, hh, astypeStr]⟩
    | none, none => exact Or.inl (by simp [ht, hh, astypeStr])

/-- Claim C7: no cell equal to the string "Unknown" appears in any of the
Power BI output tables.  In each cleaned dimension every row that held
"Unknown" (or any other null) is removed entirely; in the cleaned fact
table every "Unknown" cell has been replaced by null before the row
filters run, so no surviving string cell holds the sentinel; a surviving
fact row is exactly a sentinel-cleaned projection of an analytics row
passing the race and required-field policies; and the monthly fact's
month column (a period rendering, "YYYY-MM" or "NaT") is never
"Unknown". -/
theorem C7_no_unknown_in_powerbi_outputs (t : RawTables) (out : Outputs)
    (h : runPipeline t = .ok out) :
    (∀ r ∈ out.dim_departments_clean, r.name ≠ some "Unknown" ∧ r.name ≠ none)
    ∧ (∀ r ∈ out.dim_positions_clean, r.name ≠ some "Unknown" ∧ r.name ≠ none)
    ∧ (∀ r ∈ out.dim_managers_clean, r.name ≠ some "Unknown" ∧ r.name ≠ none)
    ∧ (∀ r ∈ out.dim_race_clean, r.name ≠ some "Unknown" ∧ r.name ≠ none)
    ∧ (∀ r ∈ out.fact_hr_clean, ∀ c ∈ stringCells r, c ≠ some "Unknown")
    ∧ (∀ e ∈ out.df_analytics,
        (replaceRowU (dropCols e)).racedesc.isSome
          ∧ requiredOk (replaceRowU (dropCols e)) →
        replaceRowU (dropCols e) ∈ out.fact_hr_clean)
    ∧ (∀ m ∈ out.fact_attrition_clean, m.month ≠ "Unknown") := by
  obtain ⟨rows, hrows, rfl⟩ := runPipeline_ok_elim h
  refine ⟨fun r hr => dimClean_no_unknown hr, fun r hr => dimClean_no_unknown hr,
    fun r hr => dimClean_no_unknown hr, fun r hr => dimClean_no_unknown hr,
    ?_, ?_, ?_⟩
  · intro r hr
    obtain ⟨hmem, _⟩ := List.mem_filter.mp hr
    obtain ⟨hmem2, _⟩ := List.mem_filter.mp hmem
    obtain ⟨e, _, rfl⟩ := List.mem_map.mp hmem2
    exact stringCells_replaceRowU (dropCols e)
  · intro e he hcond
    exact List.mem_filter.mpr
      ⟨List.mem_filter.mpr ⟨List.mem_map_of_mem _ he, hcond.1⟩, hcond.2⟩
  · intro m hm
    obtain ⟨srow, hs, rfl⟩ := List.mem_map.mp hm
    obtain ⟨k, hk, v, rfl⟩ := mem_monthlySummary hs
    obtain ⟨r, hr, hkr⟩ := List.mem_filterMap.mp (mem_dedupFirst.mp hk)
    obtain ⟨e, _, hok⟩ := deriveAll_ok_mem hrows r hr
    have hmonth : r.event_month = some k.2 := by
      unfold keyOf at hkr
      match hy : r.event_year, hmm : r.event_month with
      | some y, some mv =>
        rw [hy, hmm] at hkr
        simp only [Option.some.injEq] at hkr
        rw [← hkr]
      | some y, none => rw [hy, hmm] at hkr; simp at hkr
      | none, _ => rw [hy] at hkr; simp at hkr
    rcases event_month_value hok with hnat | ⟨z, hz⟩
    · rw [hmonth] at hnat
      simp only [Option.some.injEq] at hnat
      show k.2 ≠ "Unknown"
      rw [hnat]
      decide
    · rw [hmonth] at hz
      simp only [Option.some.injEq] at hz
      show k.2 ≠ "Unknown"
      rw [hz]
      exact periodStrOf_ne_unknown z

/-- Claim C10: the Star-Schema Cleaner never reassigns dimension
identifiers — every surviving dimension row is literally a row of the
Dimension Builder's output, so identifiers may be left with gaps (shown
on a concrete input where the "Unknown" key held identifier 2); and fact
cleaning only removes columns and rows: every surviving cleaned row is a
projection of an analytics row with all cells carried over unchanged
except that "Unknown" string cells become null. -/
theorem C10_cleaner_frame_effects :
    (∀ (col : List (Option String)), ∀ r ∈ dimClean (buildDim col), r ∈ buildDim col)
    ∧ (dimClean (buildDim [some "A", some "Unknown", some "B"])).map DimRow.id = [1, 3]
    ∧ (∀ (rows : List ERow) (r : CleanRow), r ∈ factHrClean rows →
        ∃ e ∈ rows, r = replaceRowU (dropCols e)
          ∧ r.department_id = e.dept.map DimRow.id
          ∧ r.position_id = e.pos.map DimRow.id
          ∧ r.manager_id = e.mgr.map DimRow.id
          ∧ r.race_id = e.race.map DimRow.id
          ∧ r.salary = e.emp.salary
          ∧ r.date_of_hire = e.emp.date_of_hire
          ∧ r.is_terminated = e.is_terminated
          ∧ r.racedesc = replaceU e.emp.racedesc
          ∧ (e.emp.racedesc ≠ some "Unknown" → r.racedesc = e.emp.racedesc)
          ∧ (e.emp.gender ≠ some "Unknown" → r.gender = e.emp.gender)) := by
  refine ⟨?_, by decide, ?_⟩
  · intro col r hr
    obtain ⟨hmem, hsome⟩ := List.mem_filter.mp hr
    obtain ⟨x, hx, rfl⟩ := List.mem_map.mp hmem
    have hne : x.name ≠ some "Unknown" := by
      intro hc
      rw [show ({ x with name := replaceU x.name } : DimRow).name
          = replaceU x.name from rfl, hc] at hsome
      simp [replaceU] at hsome
    have hself : replaceU x.name = x.name := replaceU_eq_self_of_ne hne
    have hxx : ({ x with name := replaceU x.name } : DimRow) = x := by rw [hself]
    rw [hxx]
    exact hx
  · intro rows r hr
    obtain ⟨hmem, hreq⟩ := List.mem_filter.mp hr
    obtain ⟨hmem2, hrace⟩ := List.mem_filter.mp hmem
    obtain ⟨e, he, rfl⟩ := List.mem_map.mp hmem2
    exact ⟨e, he, rfl, rfl, rfl, rfl, rfl, rfl, rfl, rfl, rfl,
      fun hne => replaceU_eq_self_of_ne hne,
      fun hne => replaceU_eq_self_of_ne hne⟩

/-- A fully populated derived row whose cleaned projection passes both
row filters; a concrete input for witnesses. -/
def fullERow : ERow :=
  { emp := { employee_id := some "E1", department := some "D", position := some "P",
             manager_name := some "M", racedesc := some "R", gender := some "F",
             salary := some 1, date_of_birth := some (-7000), date_of_hire := some 0,
             date_of_termination := some 100, performance_category := some "Good",
             attrition_flag := .bool true },
    dept := some ⟨some "D", 1⟩, pos := some ⟨some "P", 1⟩, mgr := some ⟨some "M", 1⟩,
    race := some ⟨some "R", 1⟩,
    event_date := some 100, event_year := some 1970, event_month := some "1970-01",
    tenure_days := some 100, tenure_bucket := some "<6 months", is_terminated := 1 }

/-- Witness for C10: identifier preservation and the cleaned-projection
shape evaluated on concrete inputs. -/
theorem C10_cleaner_frame_effects_witness :
    (⟨some "A", 1⟩ : DimRow) ∈ buildDim [some "A", some "Unknown", some "B"]
    ∧ ∃ e ∈ [fullERow],
        replaceRowU (dropCols fullERow) = replaceRowU (dropCols e) := by
  constructor
  · exact C10_cleaner_frame_effects.1 [some "A", some "Unknown", some "B"]
      ⟨some "A", 1⟩ (by decide)
  · obtain ⟨e, he, heq, _⟩ := C10_cleaner_frame_effects.2.2 [fullERow]
      (replaceRowU (dropCols fullERow)) (by decide)
    exact ⟨e, he, heq⟩

theorem mergeLeft_exists {α β : Type} (ds : List DimRow) (k : α → Option String)
    (mk : α → Option DimRow → β) :
    ∀ {fs : List α}, ∀ r ∈ fs, ∃ dopt, mk r dopt ∈ mergeLeft fs ds k mk := by
  intro fs
  induction fs with
  | nil => intro r hr; exact absurd hr (List.not_mem_nil r)
  | cons r0 rest ih =>
    intro r hr
    simp only [mergeLeft]
    rcases List.mem_cons.mp hr with rfl | hr
    · match hF : ds.filter (fun d => keyMatchB (k r) d.name) with
      | [] =>
        refine ⟨none, ?_⟩
        rw [hF]
        exact List.mem_append.mpr (Or.inl (List.mem_singleton.mpr rfl))
      | d :: ds2 =>
        refine ⟨some d, ?_⟩
        rw [hF]
        exact List.mem_append.mpr (Or.inl
          (List.mem_map_of_mem _ (List.mem_cons_self _ _)))
    · obtain ⟨dopt, hd⟩ := ih r hr
      exact ⟨dopt, List.mem_append.mpr (Or.inr hd)⟩

theorem enrich_exists_emp (facts : List FactRow) (dd dp dm dr : List DimRow) :
    ∀ r ∈ facts, ∃ e ∈ enrich facts dd dp dm dr, e.emp = r := by
  intro r hr
  unfold enrich
  obtain ⟨d1, h1⟩ := mergeLeft_exists dd FactRow.department
    (fun r d => Enriched.mk r d none none none) r hr
  obtain ⟨d2, h2⟩ := mergeLeft_exists dp (fun e => e.emp.position)
    (fun e d => { e with pos := d }) _ h1
  obtain ⟨d3, h3⟩ := mergeLeft_exists dm (fun e => e.emp.manager_name)
    (fun e d => { e with mgr := d }) _ h2
  obtain ⟨d4, h4⟩ := mergeLeft_exists dr (fun e => e.emp.racedesc)
    (fun e d => { e with race := d }) _ h3
  exact ⟨_, h4, rfl⟩

theorem deriveRow_error_of_other {e : Enriched} {s : String}
    (h : e.emp.attrition_flag = FlagVal.other s) :
    deriveRow e = .error ("invalid literal for int() with base 10: " ++ s) := by
  rw [deriveRow, h]
  rfl

/-- Claim C9, amended: a non-numeric attrition-flag value (outside the
true-like/false-like and numeric domains) makes the integer cast of the
Temporal Feature Deriver fail, and the whole run aborts with an error
(fatal, unrecovered: the pipeline returns no output tables at all);
true-like/false-like values give `is_terminated` exactly 0 or 1; but a
numeric out-of-domain value (such as the string "2") is silently
converted by `int()` to its integer value, without aborting and without
being confined to 0/1. -/
theorem C9_attrition_flag_cast_abort (t : RawTables) :
    (∀ r ∈ t.fact, ∀ s, r.attrition_flag = FlagVal.other s →
        ∃ msg, runPipeline t = .error msg)
    ∧ (∀ (e : Enriched) (b : Bool), e.emp.attrition_flag = FlagVal.bool b →
        ∃ row, deriveRow e = .ok row
          ∧ (row.is_terminated = 0 ∨ row.is_terminated = 1))
    ∧ (∀ (e : Enriched) (n : Int), e.emp.attrition_flag = FlagVal.num n →
        ∃ row, deriveRow e = .ok row ∧ row.is_terminated = n) := by
  refine ⟨?_, ?_, ?_⟩
  · intro r hr s hflag
    obtain ⟨e, he, hemp⟩ := enrich_exists_emp t.fact (buildDim t.dept_col)
      (buildDim t.pos_col) (buildDim t.mgr_col) (buildDim t.race_col) r hr
    have herr := deriveRow_error_of_other
      (show e.emp.attrition_flag = FlagVal.other s by rw [hemp]; exact hflag)
    obtain ⟨msg, hmsg⟩ := deriveAll_error_of_mem he herr
    refine ⟨msg, ?_⟩
    have hne : ¬ (t.fact.isEmpty = true) := by
      intro hc
      rw [List.isEmpty_iff] at hc
      rw [hc] at hr
      exact absurd hr (List.not_mem_nil r)
    unfold runPipeline
    rw [if_neg hne, hmsg]
  · intro e b hflag
    cases b
    · refine ⟨_, by rw [deriveRow, hflag]; rfl, ?_⟩
      exact Or.inl rfl
    · refine ⟨_, by rw [deriveRow, hflag]; rfl, ?_⟩
      exact Or.inr rfl
  · intro e n hflag
    refine ⟨_, by rw [deriveRow, hflag]; rfl, ?_⟩
    rfl

/-- A raw-table bundle whose single fact row carries an out-of-domain
attrition flag. -/
def badTables : RawTables :=
  { fact := [{ noneFact with attrition_flag := .other "maybe" }],
    dept_col := [], pos_col := [], mgr_col := [], race_col := [] }

/-- An enriched row whose attrition flag holds the numeric string "2",
which `int()` converts silently. -/
def numEnriched : Enriched :=
  ⟨{ noneFact with attrition_flag := .num 2 }, none, none, none, none⟩

/-- A raw-table bundle whose single fact row carries that numeric flag. -/
def numTables : RawTables :=
  { fact := [{ noneFact with attrition_flag := .num 2 }],
    dept_col := [], pos_col := [], mgr_col := [], race_col := [] }

/-- Counterexample to C9 as stated: a flag holding the numeric string "2"
is outside the true-like/false-like domain, yet the cast does not fail —
the run completes with output tables, and the derived row carries
`is_terminated = 2`, which is neither 0 nor 1. -/
theorem C9_out_of_domain_no_abort_counterexample :
    (∃ out, runPipeline numTables = Except.ok out)
    ∧ (∃ row, deriveRow numEnriched = Except.ok row
        ∧ row.is_terminated = 2
        ∧ ¬ (row.is_terminated = 0 ∨ row.is_terminated = 1)) := by
  refine ⟨⟨_, rfl⟩, ⟨_, rfl, rfl, by decide⟩⟩

/-- Witness for C9: a run on a non-numeric flag aborts; a false-like flag
derives with `is_terminated = 0`; the numeric flag "2" derives with
`is_terminated = 2`. -/
theorem C9_attrition_flag_cast_abort_witness :
    (∃ msg, runPipeline badTables = Except.error msg)
    ∧ (∃ row, deriveRow noneEnriched = Except.ok row
        ∧ (row.is_terminated = 0 ∨ row.is_terminated = 1))
    ∧ (∃ row, deriveRow numEnriched = Except.ok row ∧ row.is_terminated = 2) :=
  ⟨(C9_attrition_flag_cast_abort badTables).1 _ (List.mem_singleton.mpr rfl)
      "maybe" rfl,
   (C9_attrition_flag_cast_abort badTables).2.1 noneEnriched false rfl,
   (C9_attrition_flag_cast_abort badTables).2.2 numEnriched 2 rfl⟩

/-- A raw-table bundle for a clean end-to-end run. -/
def sampleTables : RawTables :=
  { fact := [{ noneFact with date_of_hire := some 0 }],
    dept_col := [some "Dept"], pos_col := [some "Pos"],
    mgr_col := [some "Mgr"], race_col := [some "Race"] }

/-- Witness for C7: a successful concrete run, with the monthly-fact and
department-dimension conclusions of the claim instantiated on its
outputs. -/
theorem C7_no_unknown_in_powerbi_outputs_witness :
    ∃ out, runPipeline sampleTables = Except.ok out
      ∧ (∀ m ∈ out.fact_attrition_clean, m.month ≠ "Unknown")
      ∧ (∀ r ∈ out.dim_departments_clean, r.name ≠ some "Unknown" ∧ r.name ≠ none) := by
  refine ⟨_, rfl, ?_, ?_⟩
  · exact (C7_no_unknown_in_powerbi_outputs sampleTables _ rfl).2.2.2.2.2.2
  · exact (C7_no_unknown_in_powerbi_outputs sampleTables _ rfl).1

/-- Witness for C1: the joiner evaluated on a one-row fact table. -/
theorem C1_enrichment_joiner_preserves_rows_witness :
    ((buildDim [some "A"]).map DimRow.name).Nodup
    ∧ (enrich [noneFact] (buildDim [some "A"]) (buildDim [some "A"])
        (buildDim [some "A"]) (buildDim [some "A"])).length = 1 := by
  refine ⟨by decide, ?_⟩
  have h := C1_enrichment_joiner_preserves_rows [noneFact] (buildDim [some "A"])
    (buildDim [some "A"]) (buildDim [some "A"]) (buildDim [some "A"])
    (by decide) (by decide) (by decide) (by decide)
  simpa using h.1

/-- Witness for C2: the identifier column evaluated on a concrete input. -/
theorem C2_dimension_builder_correct_witness :
    (buildDim [some "A", some "A", some "B"]).map DimRow.id
      = List.range' 1 (buildDim [some "A", some "A", some "B"]).length :=
  (C2_dimension_builder_correct [some "A", some "A", some "B"]).2.2.2.1

end HRPipeline
